import Mathlib

/-!
Verification of the Node build-plan provider (`src/providers/node/mod.rs`).

The development shallowly embeds the provider's data model and operations.
Pure Rust functions become Lean functions; fallible operations return
`Except Unit _` (the error payload is irrelevant to the properties, so the
error type is `Unit`).  The project tree and the collaborator interfaces
(file reads, JSON/YAML parsing, monorepo delegates, environment lookups)
live outside the translated file and are modelled from the specification's
interface section.
-/

set_option autoImplicit false

/-! ## String helpers

Structural-recursion replacements for the string operations the Rust code
relies on (`str::contains`, `str::starts_with`, `str::trim`,
`str::replace(char, "")`, slicing), written over `String.data` so that
every use reduces in the kernel. -/

/-- Is `needle` a contiguous sub-list of `hay`?  (Rust `str::contains`.) -/
def hasSubChars (needle : List Char) : List Char → Bool
  | [] => needle.isEmpty
  | c :: t => needle.isPrefixOf (c :: t) || hasSubChars needle t

/-- Rust `str::contains` on substrings. -/
def strContains (hay needle : String) : Bool :=
  hasSubChars needle.data hay.data

/-- Rust `str::starts_with`. -/
def strStartsWith (s pre : String) : Bool :=
  pre.data.isPrefixOf s.data

/-- Rust `str::ends_with`. -/
def strEndsWith (s suf : String) : Bool :=
  suf.data.reverse.isPrefixOf s.data.reverse

/-- Drop the first `n` characters (Rust byte-slicing on ASCII input). -/
def strDrop (s : String) (n : Nat) : String :=
  String.mk (s.data.drop n)

/-- Drop the last `n` characters. -/
def strDropRight (s : String) (n : Nat) : String :=
  String.mk (s.data.take (s.data.length - n))

/-- Rust `str::trim` (whitespace on both sides). -/
def strTrim (s : String) : String :=
  String.mk (((s.data.dropWhile Char.isWhitespace).reverse.dropWhile Char.isWhitespace).reverse)

/-- Rust `str::replace(c, "")`: remove every occurrence of the character. -/
def strRemoveChar (s : String) (c : Char) : String :=
  String.mk (s.data.filter (fun a => decide (a ≠ c)))

/-- First-match association-list lookup (Rust `HashMap::get`). -/
def lookupStr : List (String × String) → String → Option String
  | [], _ => none
  | (k, v) :: rest, key => if k = key then some v else lookupStr rest key

/-- Value of a digit string, most significant first (Rust `str::parse::<u32>`
on an all-digit string). -/
def digitsToNat (cs : List Char) : Nat :=
  cs.foldl (fun a c => a * 10 + (c.toNat - 48)) 0

/-! ## Data model -/

/-- `package.json` `workspaces` field: either a glob list or an opaque
unrecognized value (the raw JSON value is abstracted away). -/
inductive Workspaces where
  | array (globs : List String)
  | unknown
  deriving DecidableEq

/-- The parsed `package.json` manifest (struct `PackageJson`).  Rust
`HashMap<String, String>` fields are modelled as association lists; only
lookup and key enumeration are performed on them. -/
structure PackageJson where
  name : Option String := none
  scripts : Option (List (String × String)) := none
  engines : Option (List (String × String)) := none
  main : Option String := none
  dependencies : Option (List (String × String)) := none
  dev_dependencies : Option (List (String × String)) := none
  project_type : Option String := none
  workspaces : Option Workspaces := none
  deriving DecidableEq

/-- The parsed `.yarnrc.yml` file (struct `Yarnrc`). -/
structure Yarnrc where
  yarn_path : Option String := none
  deriving DecidableEq

/-- Modelled from the spec: a Nix package identifier, optionally sourced
from an overlay (`nix::pkg::Pkg`, declared outside the provider file). -/
structure Pkg where
  name : String
  overlay : Option String := none
  deriving DecidableEq

def Pkg.new (name : String) : Pkg := { name := name }

def Pkg.from_overlay (pkg : Pkg) (overlay : String) : Pkg :=
  { pkg with overlay := some overlay }

deriving instance DecidableEq for Except

/-- Modelled from the spec: the project-tree snapshot plus the collaborator
interfaces of the spec's external-interface section.  `files` are the paths
that exist (relative to the project root, slash-separated); `contents` is
the raw text of each existing file; `parseJson`/`parseYaml` give the parse
outcome of each existing structured file (`.error ()` = malformed input).
The two monorepo delegate strategies are opaque per the spec, so their
answers for this tree/environment snapshot are carried as fields. -/
structure App where
  files : List String
  contents : String → String
  parseJson : String → Except Unit PackageJson
  parseYaml : String → Except Unit Yarnrc
  nxMonorepo : Bool
  nxBuildCmd : Option String
  nxStartCmd : Except Unit (Option String)
  turbo : Bool
  turboBuildCmd : Except Unit (Option String)
  turboStartCmd : PackageJson → Except Unit (Option String)

/-- `App::includes_file`. -/
def App.includes_file (app : App) (f : String) : Bool :=
  app.files.any (fun g => decide (g = f))

/-- `App::read_file`: errors when the file is absent. -/
def App.read_file (app : App) (f : String) : Except Unit String :=
  if app.includes_file f then Except.ok (app.contents f) else Except.error ()

/-- `App::read_file(..).unwrap_or_default()`. -/
def App.readFileD (app : App) (f : String) : String :=
  match app.read_file f with
  | Except.ok s => s
  | Except.error _ => ""

/-- `App::read_json`: errors when the file is absent or malformed. -/
def App.readJson (app : App) (f : String) : Except Unit PackageJson :=
  if app.includes_file f then app.parseJson f else Except.error ()

/-- `App::read_json(..).unwrap_or_default()`. -/
def App.readJsonD (app : App) (f : String) : PackageJson :=
  match app.readJson f with
  | Except.ok j => j
  | Except.error _ => {}

/-- `App::read_yaml(..).unwrap_or_default()` at type `Yarnrc`. -/
def App.readYamlD (app : App) (f : String) : Yarnrc :=
  if app.includes_file f then
    match app.parseYaml f with
    | Except.ok y => y
    | Except.error _ => {}
  else {}

/-- `App::find_files("**/package.json")`: every existing `package.json`,
at the root or nested at any depth. -/
def packageJsonFiles (app : App) : List String :=
  app.files.filter (fun p => decide (p = "package.json") || strEndsWith p "/package.json")

/-- `Path::parent` composed with `App::strip_source_path` and `to_slash`,
restricted to paths produced by `packageJsonFiles`: the relative directory
holding the manifest (`""` for the project root). -/
def parentDir (p : String) : String :=
  if strEndsWith p "/package.json" then strDropRight p ("/package.json".length) else ""

/-- Modelled from the spec: the environment-variable override snapshot
(the Rust field is called `variables`; that name is reserved here). -/
structure Environment where
  vars : List (String × String) := []

/-- Modelled from the spec: override lookup by the fixed
`NIXPACKS_<name>` naming convention (`Environment::get_config_variable`). -/
def Environment.get_config_variable (env : Environment) (name : String) : Option String :=
  lookupStr env.vars ("NIXPACKS_" ++ name)

/-- Modelled from the spec: one ordered build-plan stage with commands,
system packages, cache directories and PATH entries
(`plan::phase::Phase`). -/
structure Phase where
  name : String := ""
  cmds : List String := []
  nixPkgs : List Pkg := []
  aptPkgs : List String := []
  nixLibs : List String := []
  cacheDirectories : List String := []
  paths : List String := []
  deriving DecidableEq

instance : Inhabited Phase := ⟨{}⟩

def Phase.setup (pkgs : List Pkg) : Phase := { name := "setup", nixPkgs := pkgs }

def Phase.install (cmd : Option String) : Phase := { name := "install", cmds := cmd.toList }

def Phase.build (cmd : Option String) : Phase := { name := "build", cmds := cmd.toList }

def Phase.add_apt_pkgs (phase : Phase) (pkgs : List String) : Phase :=
  { phase with aptPkgs := phase.aptPkgs ++ pkgs }

def Phase.add_pkgs_libs (phase : Phase) (libs : List String) : Phase :=
  { phase with nixLibs := phase.nixLibs ++ libs }

def Phase.add_cache_directory (phase : Phase) (dir : String) : Phase :=
  { phase with cacheDirectories := phase.cacheDirectories ++ [dir] }

def Phase.add_path (phase : Phase) (path : String) : Phase :=
  { phase with paths := phase.paths ++ [path] }

/-- Modelled from the spec: the start phase (`plan::phase::StartPhase`). -/
structure StartPhase where
  cmd : String
  deriving DecidableEq

def StartPhase.new (cmd : String) : StartPhase := { cmd := cmd }

/-- Modelled from the spec: the assembled plan (`plan::BuildPlan`). -/
structure BuildPlan where
  phases : List Phase := []
  start : Option StartPhase := none
  vars : List (String × String) := []
  deriving DecidableEq

instance : Inhabited BuildPlan := ⟨{}⟩

def BuildPlan.new (phases : List Phase) (start : Option StartPhase) : BuildPlan :=
  { phases := phases, start := start }

def BuildPlan.add_variables (plan : BuildPlan) (newVars : List (String × String)) : BuildPlan :=
  { plan with vars := plan.vars ++ newVars }

/-! ## Provider constants -/

def NODE_OVERLAY : String :=
  "https://github.com/railwayapp/nix-npm-overlay/archive/main.tar.gz"

def DEFAULT_NODE_PKG_NAME : String := "nodejs-16_x"

def AVAILABLE_NODE_VERSIONS : List Nat := [14, 16, 18]

def YARN_CACHE_DIR : String := "/usr/local/share/.cache/yarn/v6"

def PNPM_CACHE_DIR : String := "/root/.cache/pnpm"

def NPM_CACHE_DIR : String := "/root/.npm"

def BUN_CACHE_DIR : String := "/root/.bun"

def CYPRESS_CACHE_DIR : String := "/root/.cache/Cypress"

def NODE_MODULES_CACHE_DIR : String := "node_modules/.cache"

/-- The eleven apt packages installed for `puppeteer`. -/
def puppeteerAptPkgs : List String :=
  ["libnss3", "libatk1.0-0", "libatk-bridge2.0-0", "libcups2", "libgbm1",
   "libasound2", "libpangocairo-1.0-0", "libxss1", "libgtk-3-0",
   "libxshmfence1", "libglu1"]

/-! ## Version resolution (`get_nix_node_pkg` and helpers) -/

/-- `version_number_to_pkg`. -/
def version_number_to_pkg (version : Nat) : String :=
  if version ∈ AVAILABLE_NODE_VERSIONS then "nodejs-" ++ toString version ++ "_x"
  else DEFAULT_NODE_PKG_NAME

/-- The effect of `parse_regex_into_pkg` with the first regex
`^(\d*)(?:\.?(?:\d*|[xX]?)?)(?:\.?(?:\d*|[xX]?)?)`: the regex always
matches at position 0, capture 1 is the maximal leading digit run, and
`str::parse::<u32>` succeeds exactly when that run is non-empty and its
value fits in a `u32`. -/
def parseLeadingU32 (s : String) : Option Nat :=
  let d := s.data.takeWhile Char.isDigit
  if d ≠ [] ∧ digitsToNat d < 4294967296 then some (digitsToNat d) else none

/-- The constraint-string part of `get_nix_node_pkg`: the `"*"` wildcard,
then the leading-version regex, then the `^>=(\d+)` range regex, then the
default. -/
def resolveNodeVersion (node_version : String) : Pkg :=
  if node_version = "*" then Pkg.new DEFAULT_NODE_PKG_NAME
  else
    match parseLeadingU32 node_version with
    | some v => Pkg.new (version_number_to_pkg v)
    | none =>
      match (if strStartsWith node_version ">=" then parseLeadingU32 (strDrop node_version 2)
             else none) with
      | some v => Pkg.new (version_number_to_pkg v)
      | none => Pkg.new DEFAULT_NODE_PKG_NAME

/-- The `.nvmrc` hint: present when the file exists; its content is trimmed
and every `'v'` character removed (`nvmrc.trim().replace('v', "")`).  In
this model reading an existing file cannot fail, so the `?` on
`read_file(".nvmrc")` has no error branch. -/
def nvmrcHint (app : App) : Option String :=
  if app.includes_file ".nvmrc" then
    some (strRemoveChar (strTrim (app.contents ".nvmrc")) 'v')
  else none

namespace NodeProvider

/-- `NodeProvider::get_nix_node_pkg`. -/
def get_nix_node_pkg (package_json : PackageJson) (app : App) (env : Environment) : Pkg :=
  let env_node_version := env.get_config_variable "NODE_VERSION"
  let pkg_node_version := package_json.engines.bind (fun engines => lookupStr engines "node")
  let node_version :=
    (env_node_version.orElse (fun _ => pkg_node_version)).orElse (fun _ => nvmrcHint app)
  match node_version with
  | none => Pkg.new DEFAULT_NODE_PKG_NAME
  | some node_version => resolveNodeVersion node_version

/-- `NodeProvider::get_package_manager`. -/
def get_package_manager (app : App) : String :=
  if app.includes_file "pnpm-lock.yaml" then "pnpm"
  else if app.includes_file "yarn.lock" then "yarn"
  else if app.includes_file "bun.lockb" then "bun"
  else "npm"

/-- `NodeProvider::get_package_manager_dlx_command`. -/
def get_package_manager_dlx_command (app : App) : String :=
  let pkg_manager := get_package_manager app
  if pkg_manager = "pnpm" then "pnpx"
  else if pkg_manager = "yarn" then "yarn"
  else "npx"

/-- `NodeProvider::get_install_command`. -/
def get_install_command (app : App) : Option String :=
  if app.includes_file "package.json" then
    some (
      let package_manager := get_package_manager app
      if package_manager = "pnpm" then "pnpm i --frozen-lockfile"
      else if package_manager = "yarn" then
        (if app.includes_file ".yarnrc.yml" then
           match (app.readYamlD ".yarnrc.yml").yarn_path with
           | some path => "yarn set version ./" ++ path ++ " && yarn install --check-cache"
           | none => "yarn set version berry && yarn install --check-cache"
         else "yarn install --frozen-lockfile")
      else if app.includes_file "package-lock.json" then "npm ci"
      else if app.includes_file "bun.lockb" then "bun i --no-save"
      else "npm i")
  else none

/-- `NodeProvider::get_package_manager_cache_dir`. -/
def get_package_manager_cache_dir (app : App) : String :=
  let package_manager := get_package_manager app
  if package_manager = "yarn" then YARN_CACHE_DIR
  else if package_manager = "pnpm" then PNPM_CACHE_DIR
  else if package_manager = "bun" then BUN_CACHE_DIR
  else NPM_CACHE_DIR

/-- `NodeProvider::get_executor`. -/
def get_executor (app : App) : String :=
  if get_package_manager app = "bun" then "bun" else "node"

/-- `NodeProvider::get_deps_from_package_json`: the runtime and development
dependency names of one manifest. -/
def get_deps_from_package_json (json : PackageJson) : List String :=
  (match json.dependencies with
   | some deps => deps.map Prod.fst
   | none => []) ++
  (match json.dev_dependencies with
   | some dev_deps => dev_deps.map Prod.fst
   | none => [])

/-- `NodeProvider::has_script` minus its (infallible) `Result` wrapper:
the manifest is read with `unwrap_or_default`, so a malformed manifest
behaves as an empty one. -/
def hasScriptB (app : App) (script : String) : Bool :=
  match (app.readJsonD "package.json").scripts with
  | some scripts => (lookupStr scripts script).isSome
  | none => false

/-- `NodeProvider::has_script`. -/
def has_script (app : App) (script : String) : Except Unit Bool :=
  Except.ok (hasScriptB app script)

/-- `NodeProvider::uses_node_dependency`: raw substring search over the
manifest and the three lockfiles. -/
def uses_node_dependency (app : App) (dependency : String) : Bool :=
  ["package.json", "package-lock.json", "yarn.lock", "pnpm-lock.yaml"].any
    (fun file => strContains (app.readFileD file) dependency)

/-- Loop body of `NodeProvider::get_all_deps` over the discovered manifest
paths. -/
def allDepsAux (app : App) : List String → Except Unit (List String)
  | [] => Except.ok []
  | f :: rest =>
    if strContains f "node_modules" then allDepsAux app rest
    else
      match app.readJson f with
      | Except.error e => Except.error e
      | Except.ok json =>
        match allDepsAux app rest with
        | Except.error e => Except.error e
        | Except.ok deps => Except.ok (get_deps_from_package_json json ++ deps)

/-- `NodeProvider::get_all_deps` (the Rust `HashSet` is modelled as a list
used only through membership). -/
def get_all_deps (app : App) : Except Unit (List String) :=
  allDepsAux app (packageJsonFiles app)

/-- Loop body of `NodeProvider::find_next_packages`. -/
def findNextAux (app : App) : List String → Except Unit (List String)
  | [] => Except.ok []
  | f :: rest =>
    if strContains f "node_modules" then findNextAux app rest
    else
      match app.readJson f with
      | Except.error e => Except.error e
      | Except.ok json =>
        match findNextAux app rest with
        | Except.error e => Except.error e
        | Except.ok dirs =>
          Except.ok (if "next" ∈ get_deps_from_package_json json then parentDir f :: dirs
                     else dirs)

/-- `NodeProvider::find_next_packages`: relative directories of manifests
(outside `node_modules`) that declare a dependency on `next`. -/
def find_next_packages (app : App) : Except Unit (List String) :=
  findNextAux app (packageJsonFiles app)

/-- `NodeProvider::get_nix_packages`. -/
def get_nix_packages (app : App) (env : Environment) : Except Unit (List Pkg) :=
  match (if app.includes_file "package.json" then app.readJson "package.json"
         else Except.ok {}) with
  | Except.error e => Except.error e
  | Except.ok package_json =>
    let node_pkg := get_nix_node_pkg package_json app env
    let package_manager := get_package_manager app
    let base : List Pkg := if package_manager ≠ "bun" then [node_pkg] else []
    let pm_pkg : Pkg :=
      if package_manager = "pnpm" then
        (if strStartsWith (app.readFileD "pnpm-lock.yaml") "lockfileVersion: 5.3" then
           Pkg.new "pnpm-6_x"
         else Pkg.new "pnpm-7_x")
      else if package_manager = "yarn" then Pkg.new "yarn-1_x"
      else if package_manager = "bun" then Pkg.new "bun"
      else
        (if strContains (app.readFileD "package-lock.json") "\"lockfileVersion\": 1" then
           Pkg.new "npm-6_x"
         else Pkg.new "npm-8_x")
    Except.ok (base ++ [Pkg.from_overlay pm_pkg NODE_OVERLAY])

/-- `NodeProvider::get_build_cmd`. -/
def get_build_cmd (app : App) (env : Environment) : Except Unit (Option String) :=
  match (if app.nxMonorepo then app.nxBuildCmd else none) with
  | some c => Except.ok (some c)
  | none =>
    match (if app.turbo then
             match app.turboBuildCmd with
             | Except.ok (some c) => some c
             | _ => none
           else none) with
    | some c => Except.ok (some c)
    | none =>
      if hasScriptB app "build" then Except.ok (some (get_package_manager app ++ " run build"))
      else Except.ok none

/-- `NodeProvider::get_start_cmd`.  The Nx delegate's error propagates
(`?`); the Turborepo delegate's error is swallowed (`if let Ok(Some(..))`);
every tier below the delegates is infallible, so the tail is a pure
`Option` computation. -/
def get_start_cmd (app : App) (env : Environment) : Except Unit (Option String) :=
  let executor := get_executor app
  let package_json := app.readJsonD "package.json"
  match (if app.nxMonorepo then app.nxStartCmd else Except.ok none) with
  | Except.error e => Except.error e
  | Except.ok (some c) => Except.ok (some c)
  | Except.ok none =>
    match (if app.turbo then
             match app.turboStartCmd package_json with
             | Except.ok (some c) => some c
             | _ => none
           else none) with
    | some c => Except.ok (some c)
    | none =>
      let package_manager := get_package_manager app
      Except.ok (
        if hasScriptB app "start" then some (package_manager ++ " run start")
        else
          match package_json.main with
          | some main =>
            if app.includes_file main then some (executor ++ " " ++ main)
            else if app.includes_file "index.js" then some (executor ++ " index.js")
            else if app.includes_file "index.ts" && decide (package_manager = "bun") then
              some "bun index.ts"
            else none
          | none =>
            if app.includes_file "index.js" then some (executor ++ " index.js")
            else if app.includes_file "index.ts" && decide (package_manager = "bun") then
              some "bun index.ts"
            else none)

/-- `NodeProvider::get_node_environment_variables`. -/
def get_node_environment_variables : List (String × String) :=
  [("NODE_ENV", "production"), ("NPM_CONFIG_PRODUCTION", "false"), ("CI", "true")]

/-- The setup phase built by `NodeProvider::get_build_plan`. -/
def setupPhase (app : App) (pkgs : List Pkg) : Phase :=
  let setup := Phase.setup pkgs
  if uses_node_dependency app "puppeteer" then Phase.add_apt_pkgs setup puppeteerAptPkgs
  else if uses_node_dependency app "canvas" then
    Phase.add_pkgs_libs setup ["libuuid", "libGL"]
  else setup

/-- The install phase built by `NodeProvider::get_build_plan`. -/
def installPhase (app : App) (all_deps : List String) : Phase :=
  let install :=
    Phase.add_path
      (Phase.add_cache_directory (Phase.install (get_install_command app))
        (get_package_manager_cache_dir app))
      "/app/node_modules/.bin"
  if "cypress" ∈ all_deps then Phase.add_cache_directory install CYPRESS_CACHE_DIR
  else install

/-- The per-directory cache path added for each discovered `next` manifest
directory. -/
def nextCacheDir (dir : String) : String :=
  if dir = "" then ".next/cache" else dir ++ "/" ++ ".next/cache"

/-- The build phase built by `NodeProvider::get_build_plan`. -/
def buildPhase (buildCmd : Option String) (next_dirs : List String) : Phase :=
  Phase.add_cache_directory
    (next_dirs.foldl (fun b dir => Phase.add_cache_directory b (nextCacheDir dir))
      (Phase.build buildCmd))
    NODE_MODULES_CACHE_DIR

/-- `NodeProvider::get_build_plan` (the `Provider` trait method). -/
def get_build_plan (app : App) (env : Environment) : Except Unit (Option BuildPlan) :=
  match get_nix_packages app env with
  | Except.error e => Except.error e
  | Except.ok pkgs =>
    let setup := setupPhase app pkgs
    match get_all_deps app with
    | Except.error e => Except.error e
    | Except.ok all_deps =>
      let install := installPhase app all_deps
      match get_build_cmd app env with
      | Except.error e => Except.error e
      | Except.ok buildCmd =>
        match find_next_packages app with
        | Except.error e => Except.error e
        | Except.ok next_dirs =>
          let build := buildPhase buildCmd next_dirs
          match get_start_cmd app env with
          | Except.error e => Except.error e
          | Except.ok startCmd =>
            Except.ok (some
              ((BuildPlan.new [setup, install, build]
                  (startCmd.map StartPhase.new)).add_variables
                get_node_environment_variables))

end NodeProvider

/-! ## Concrete fixtures -/

/-- A tree with the given files, empty file contents, every structured file
parsing to the empty manifest, and inactive monorepo delegates. -/
def baseApp (files : List String) : App :=
  { files := files
    contents := fun _ => ""
    parseJson := fun _ => Except.ok {}
    parseYaml := fun _ => Except.ok {}
    nxMonorepo := false
    nxBuildCmd := none
    nxStartCmd := Except.ok none
    turbo := false
    turboBuildCmd := Except.ok none
    turboStartCmd := fun _ => Except.ok none }

def envEmpty : Environment := {}

/-! ## Specification-side definitions

Each follows the words of the corresponding claim and is compared with the
function translated from the source. -/

/-- Spec-side (claim C4): the highest-precedence version-hint slot that is
present, in the strict order override > engines > `.nvmrc` > none. -/
def specSelectedHint (package_json : PackageJson) (app : App) (env : Environment) :
    Option String :=
  match env.get_config_variable "NODE_VERSION" with
  | some v => some v
  | none =>
    match (match package_json.engines with
           | some engines => lookupStr engines "node"
           | none => none) with
    | some v => some v
    | none => nvmrcHint app

/-- Spec-side (claim C1, amended): the install command as a function of the
detected package-manager choice.  For `pnpm` and `yarn` it depends only on
the choice (plus yarn's `.yarnrc.yml` special case); for `npm` it is the
clean install when the npm lockfile exists, else the loose install; for
`bun` the npm-lockfile branch takes precedence: a detected-bun tree that
also carries `package-lock.json` receives `npm ci`. -/
def installCommandSpec (app : App) : String :=
  let choice := NodeProvider.get_package_manager app
  if choice = "pnpm" then "pnpm i --frozen-lockfile"
  else if choice = "yarn" then
    (if app.includes_file ".yarnrc.yml" then
       match (app.readYamlD ".yarnrc.yml").yarn_path with
       | some path => "yarn set version ./" ++ path ++ " && yarn install --check-cache"
       | none => "yarn set version berry && yarn install --check-cache"
     else "yarn install --frozen-lockfile")
  else if choice = "bun" then
    (if app.includes_file "package-lock.json" then "npm ci" else "bun i --no-save")
  else
    (if app.includes_file "package-lock.json" then "npm ci" else "npm i")

/-- Spec-side (claim C7): the start-command fallback tiers below the
monorepo delegates — manifest `start` script via the selected manager, then
a declared `main` entry that exists on disk run with the executor, then an
existing root `index.js` run with the executor, then an existing root
`index.ts` run with `bun` only when the selected manager is `bun`, else
none. -/
def startCommandFallbackSpec (app : App) : Option String :=
  let executor := NodeProvider.get_executor app
  let package_json := app.readJsonD "package.json"
  let package_manager := NodeProvider.get_package_manager app
  if NodeProvider.hasScriptB app "start" then some (package_manager ++ " run start")
  else
    match package_json.main with
    | some main =>
      if app.includes_file main then some (executor ++ " " ++ main)
      else if app.includes_file "index.js" then some (executor ++ " index.js")
      else if app.includes_file "index.ts" && decide (package_manager = "bun") then
        some "bun index.ts"
      else none
    | none =>
      if app.includes_file "index.js" then some (executor ++ " index.js")
      else if app.includes_file "index.ts" && decide (package_manager = "bun") then
        some "bun index.ts"
      else none

/-! ## Helper lemmas -/

theorem takeWhile_all_append (p : Char → Bool) :
    ∀ (d rest : List Char), d.all p = true →
      (match rest with | [] => True | c :: _ => p c = false) →
      (d ++ rest).takeWhile p = d := by
  intro d
  induction d with
  | nil =>
    intro rest _ hrest
    cases rest with
    | nil => rfl
    | cons c t => simp [List.takeWhile, hrest]
  | cons a d ih =>
    intro rest hall hrest
    simp only [List.all_cons, Bool.and_eq_true] at hall
    simp [List.takeWhile, hall.1, ih rest hall.2 hrest]

theorem strData_append (a b : String) : (a ++ b).data = a.data ++ b.data := by
  cases a
  cases b
  rfl

/-! ## Claim C6 -/

/-- Claim C6: `get_package_manager` returns exactly one choice, determined
by lockfile presence with first-match-wins precedence: `pnpm-lock.yaml` ⇒
pnpm; else `yarn.lock` ⇒ yarn; else `bun.lockb` ⇒ bun; else npm. -/
theorem c6_package_manager_precedence (app : App) :
    (app.includes_file "pnpm-lock.yaml" = true →
      NodeProvider.get_package_manager app = "pnpm")
    ∧ (app.includes_file "pnpm-lock.yaml" = false →
        app.includes_file "yarn.lock" = true →
        NodeProvider.get_package_manager app = "yarn")
    ∧ (app.includes_file "pnpm-lock.yaml" = false →
        app.includes_file "yarn.lock" = false →
        app.includes_file "bun.lockb" = true →
        NodeProvider.get_package_manager app = "bun")
    ∧ (app.includes_file "pnpm-lock.yaml" = false →
        app.includes_file "yarn.lock" = false →
        app.includes_file "bun.lockb" = false →
        NodeProvider.get_package_manager app = "npm")
    ∧ (NodeProvider.get_package_manager app = "npm"
        ∨ NodeProvider.get_package_manager app = "yarn"
        ∨ NodeProvider.get_package_manager app = "pnpm"
        ∨ NodeProvider.get_package_manager app = "bun") := by
  unfold NodeProvider.get_package_manager
  refine ⟨fun h1 => by simp [h1], fun h1 h2 => by simp [h1, h2],
          fun h1 h2 h3 => by simp [h1, h2, h3], fun h1 h2 h3 => by simp [h1, h2, h3], ?_⟩
  by_cases h1 : app.includes_file "pnpm-lock.yaml" <;>
    by_cases h2 : app.includes_file "yarn.lock" <;>
      by_cases h3 : app.includes_file "bun.lockb" <;>
        simp [h1, h2, h3]

/-- Claim C6 witness: a tree containing both a pnpm lockfile and a yarn
lockfile yields pnpm. -/
theorem c6_package_manager_precedence_witness :
    NodeProvider.get_package_manager (baseApp ["package.json", "pnpm-lock.yaml", "yarn.lock"])
      = "pnpm" :=
  (c6_package_manager_precedence
    (baseApp ["package.json", "pnpm-lock.yaml", "yarn.lock"])).1 (by decide)

/-! ## Claim C1 -/

/-- Claim C1 counterexample: a tree whose detected manager is bun but
which also carries `package-lock.json` receives npm's clean-install
command, not bun's install command. -/
theorem c1_mixed_lockfiles_counterexample :
    NodeProvider.get_package_manager (baseApp ["package.json", "bun.lockb", "package-lock.json"])
        = "bun"
    ∧ NodeProvider.get_install_command (baseApp ["package.json", "bun.lockb", "package-lock.json"])
        = some "npm ci"
    ∧ "npm ci" ≠ "bun i --no-save" := by
  refine ⟨by decide, by decide, by decide⟩

/-- Claim C1, amended: the install command is the one assigned to the
detected choice for pnpm and yarn (with the `.yarnrc.yml` special case);
for npm it is `npm ci` when `package-lock.json` exists, else `npm i`; for
a detected-bun tree it is `bun i --no-save` only when `package-lock.json`
is absent — the npm-lockfile check precedes the bun branch, so a
detected-bun tree that also has `package-lock.json` receives `npm ci`. -/
theorem c1_install_command_amended (app : App) :
    NodeProvider.get_install_command app
      = (if app.includes_file "package.json" then some (installCommandSpec app) else none) := by
  unfold NodeProvider.get_install_command installCommandSpec
  cases hpj : app.includes_file "package.json" with
  | false => simp
  | true =>
    simp only [if_pos rfl, Option.some_inj]
    unfold NodeProvider.get_package_manager
    by_cases h1 : app.includes_file "pnpm-lock.yaml" <;>
      by_cases h2 : app.includes_file "yarn.lock" <;>
        by_cases h3 : app.includes_file "bun.lockb" <;>
          simp [h1, h2, h3]

/-! ## Claim C4 -/

/-- Claim C4: `get_nix_node_pkg` resolves exactly the highest-precedence
version-hint slot that is present, in the strict order environment
override > manifest engines > `.nvmrc` > default; in particular, when the
override is present it alone determines the result. -/
theorem c4_version_hint_precedence (package_json : PackageJson) (app : App)
    (env : Environment) :
    NodeProvider.get_nix_node_pkg package_json app env
      = (match specSelectedHint package_json app env with
         | none => Pkg.new DEFAULT_NODE_PKG_NAME
         | some v => resolveNodeVersion v)
    ∧ (∀ v, env.get_config_variable "NODE_VERSION" = some v →
        NodeProvider.get_nix_node_pkg package_json app env = resolveNodeVersion v) := by
  unfold NodeProvider.get_nix_node_pkg specSelectedHint
  cases henv : env.get_config_variable "NODE_VERSION" with
  | some v => simp [Option.orElse]
  | none =>
    cases heng : package_json.engines with
    | none => simp [Option.orElse]
    | some engines =>
      cases hl : lookupStr engines "node" with
      | some v => simp [Option.orElse, hl]
      | none => simp [Option.orElse, hl]

/-- Claim C4 witness: explicit override `"14"` beats a manifest constraint
of `"18.x"`. -/
theorem c4_version_hint_precedence_witness :
    NodeProvider.get_nix_node_pkg { engines := some [("node", "18.x")] }
        (baseApp ["package.json"])
        { vars := [("NIXPACKS_NODE_VERSION", "14")] }
      = Pkg.new "nodejs-14_x" := by
  have h := (c4_version_hint_precedence { engines := some [("node", "18.x")] }
    (baseApp ["package.json"]) { vars := [("NIXPACKS_NODE_VERSION", "14")] }).2 "14" (by decide)
  rw [h]
  decide

/-! ## Claim C5 -/

/-- `true` when the string is empty or starts with a non-digit. -/
def headNonDigit (s : String) : Bool :=
  match s.data with
  | [] => true
  | c :: _ => !c.isDigit

theorem headNonDigit_match (rest : String) (h : headNonDigit rest = true) :
    (match rest.data with | [] => True | c :: _ => c.isDigit = false) := by
  unfold headNonDigit at h
  cases hr : rest.data with
  | nil => trivial
  | cons c t => rw [hr] at h; simpa using h

theorem parseLeadingU32_append (d rest : String) (h1 : d.data ≠ [])
    (h2 : d.data.all Char.isDigit = true) (h3 : digitsToNat d.data < 4294967296)
    (h4 : headNonDigit rest = true) :
    parseLeadingU32 (d ++ rest) = some (digitsToNat d.data) := by
  unfold parseLeadingU32
  rw [strData_append,
    takeWhile_all_append Char.isDigit d.data rest.data h2 (headNonDigit_match rest h4)]
  simp [h1, h3]

theorem digit_append_ne_star (d rest : String) (h1 : d.data ≠ [])
    (h2 : d.data.all Char.isDigit = true) : (d ++ rest) ≠ "*" := by
  intro heq
  have hdata : d.data ++ rest.data = ['*'] := by
    rw [← strData_append, heq]
  cases hd : d.data with
  | nil => exact h1 hd
  | cons c t =>
    rw [hd] at hdata
    have hc : c = '*' := by
      have hh := congrArg List.head? hdata
      simpa using hh
    rw [hd] at h2
    simp only [List.all_cons, Bool.and_eq_true] at h2
    rw [hc] at h2
    exact absurd h2.1 (by decide)

/-- Claim C5: the constraint-parsing policy of `get_nix_node_pkg`.  A
constraint whose leading token is a digit run (optionally followed by
anything starting with a non-digit, covering `.x`/`.X`/`.minor.patch`
tails) yields the package for that major; a range starting `>=N` yields
the package for major `N`, the upper bound being ignored; `"*"`, a string
matching no pattern, and a supported-set miss all yield the default
identifier — and every constraint resolves without error. -/
theorem c5_constraint_parsing_policy :
    (∀ (s : String) (app : App) (env : Environment),
        env.get_config_variable "NODE_VERSION" = none →
        NodeProvider.get_nix_node_pkg { engines := some [("node", s)] } app env
          = resolveNodeVersion s)
    ∧ (∀ (d rest : String), d.data ≠ [] → d.data.all Char.isDigit = true →
        digitsToNat d.data < 4294967296 → headNonDigit rest = true →
        resolveNodeVersion (d ++ rest) = Pkg.new (version_number_to_pkg (digitsToNat d.data)))
    ∧ (∀ (d rest : String), d.data ≠ [] → d.data.all Char.isDigit = true →
        digitsToNat d.data < 4294967296 → headNonDigit rest = true →
        resolveNodeVersion (">=" ++ d ++ rest)
          = Pkg.new (version_number_to_pkg (digitsToNat d.data)))
    ∧ resolveNodeVersion "*" = Pkg.new DEFAULT_NODE_PKG_NAME
    ∧ (∀ n : Nat, n ∉ AVAILABLE_NODE_VERSIONS →
        version_number_to_pkg n = DEFAULT_NODE_PKG_NAME)
    ∧ resolveNodeVersion "lts/gallium" = Pkg.new DEFAULT_NODE_PKG_NAME := by
  refine ⟨?_, ?_, ?_, by decide, ?_, by decide⟩
  · intro s app env henv
    simp [NodeProvider.get_nix_node_pkg, henv, Option.orElse, lookupStr]
  · intro d rest h1 h2 h3 h4
    unfold resolveNodeVersion
    rw [if_neg (digit_append_ne_star d rest h1 h2)]
    rw [parseLeadingU32_append d rest h1 h2 h3 h4]
  · intro d rest h1 h2 h3 h4
    have hdata : (">=" ++ d ++ rest).data = '>' :: '=' :: (d.data ++ rest.data) := by
      rw [strData_append, strData_append]
      rfl
    unfold resolveNodeVersion
    rw [if_neg (by
      intro heq
      have hh := congrArg String.data heq
      rw [hdata] at hh
      simp at hh)]
    have hlead : parseLeadingU32 (">=" ++ d ++ rest) = none := by
      unfold parseLeadingU32
      rw [hdata]
      simp [List.takeWhile]
    rw [hlead]
    have hsw : strStartsWith (">=" ++ d ++ rest) ">=" = true := by
      unfold strStartsWith
      rw [hdata]
      simp [List.isPrefixOf]
    rw [if_pos hsw]
    have hdrop : parseLeadingU32 (strDrop (">=" ++ d ++ rest) 2)
        = some (digitsToNat d.data) := by
      unfold strDrop
      rw [hdata]
      show parseLeadingU32 (String.mk (d.data ++ rest.data)) = some (digitsToNat d.data)
      unfold parseLeadingU32
      rw [show (String.mk (d.data ++ rest.data)).data = d.data ++ rest.data from rfl,
        takeWhile_all_append Char.isDigit d.data rest.data h2 (headNonDigit_match rest h4)]
      simp [h1, h3]
    rw [hdrop]
  · intro n hn
    unfold version_number_to_pkg
    rw [if_neg hn]

/-- Claim C5 witness: `"18.x"` via the engines slot yields major 18,
`">=14.10.3 <16"` yields major 14, and the unsupported major 15 yields the
default identifier. -/
theorem c5_constraint_parsing_policy_witness :
    NodeProvider.get_nix_node_pkg { engines := some [("node", "18.x")] }
        (baseApp ["package.json"]) envEmpty = Pkg.new "nodejs-18_x"
    ∧ resolveNodeVersion ">=14.10.3 <16" = Pkg.new "nodejs-14_x"
    ∧ version_number_to_pkg 15 = "nodejs-16_x" := by
  obtain ⟨h1, h2, h3, _, h5, _⟩ := c5_constraint_parsing_policy
  refine ⟨?_, ?_, ?_⟩
  · rw [h1 "18.x" (baseApp ["package.json"]) envEmpty (by decide)]
    have h := h2 "18" ".x" (by decide) (by decide) (by decide) (by decide)
    rw [show ("18" : String) ++ ".x" = "18.x" from by decide] at h
    rw [h]
    decide
  · have h := h3 "14" ".10.3 <16" (by decide) (by decide) (by decide) (by decide)
    rw [show (">=" : String) ++ "14" ++ ".10.3 <16" = ">=14.10.3 <16" from by decide] at h
    rw [h]
    decide
  · rw [h5 15 (by decide)]
    decide

/-! ## Plan-assembly structure -/

theorem get_build_plan_ok (app : App) (env : Environment) (plan : BuildPlan)
    (h : NodeProvider.get_build_plan app env = Except.ok (some plan)) :
    ∃ pkgs all_deps buildCmd next_dirs startCmd,
      NodeProvider.get_nix_packages app env = Except.ok pkgs
      ∧ NodeProvider.get_all_deps app = Except.ok all_deps
      ∧ NodeProvider.get_build_cmd app env = Except.ok buildCmd
      ∧ NodeProvider.find_next_packages app = Except.ok next_dirs
      ∧ NodeProvider.get_start_cmd app env = Except.ok startCmd
      ∧ plan = { phases := [NodeProvider.setupPhase app pkgs,
                            NodeProvider.installPhase app all_deps,
                            NodeProvider.buildPhase buildCmd next_dirs],
                 start := startCmd.map StartPhase.new,
                 vars := NodeProvider.get_node_environment_variables } := by
  unfold NodeProvider.get_build_plan at h
  cases h1 : NodeProvider.get_nix_packages app env with
  | error e => rw [h1] at h; exact Except.noConfusion h
  | ok pkgs =>
  rw [h1] at h
  cases h2 : NodeProvider.get_all_deps app with
  | error e => rw [h2] at h; exact Except.noConfusion h
  | ok all_deps =>
  rw [h2] at h
  cases h3 : NodeProvider.get_build_cmd app env with
  | error e => rw [h3] at h; exact Except.noConfusion h
  | ok buildCmd =>
  rw [h3] at h
  cases h4 : NodeProvider.find_next_packages app with
  | error e => rw [h4] at h; exact Except.noConfusion h
  | ok next_dirs =>
  rw [h4] at h
  cases h5 : NodeProvider.get_start_cmd app env with
  | error e => rw [h5] at h; exact Except.noConfusion h
  | ok startCmd =>
  rw [h5] at h
  simp only [Except.ok.injEq, Option.some.injEq] at h
  exact ⟨pkgs, all_deps, buildCmd, next_dirs, startCmd, rfl, rfl, rfl, rfl, rfl, h.symm⟩

/-! ## Claim C7 -/

/-- Claim C7: when neither monorepo orchestrator supplies a start command,
`get_start_cmd` resolves through the fallback tiers of
`startCommandFallbackSpec` (start script via the selected manager, then an
existing declared main entry with the executor, then an existing root
`index.js` with the executor, then an existing root `index.ts` with bun
only for a bun-managed tree), and when no tier applies the result is
`Except.ok none` — no error — and the assembled plan has no start phase. -/
theorem c7_start_command_fallback (app : App) (env : Environment)
    (hnx : app.nxMonorepo = true → app.nxStartCmd = Except.ok none)
    (hturbo : app.turbo = true →
      ∀ c, app.turboStartCmd (app.readJsonD "package.json") ≠ Except.ok (some c)) :
    NodeProvider.get_start_cmd app env = Except.ok (startCommandFallbackSpec app)
    ∧ (∀ plan, NodeProvider.get_build_plan app env = Except.ok (some plan) →
        plan.start = (startCommandFallbackSpec app).map StartPhase.new) := by
  have key : NodeProvider.get_start_cmd app env = Except.ok (startCommandFallbackSpec app) := by
    unfold NodeProvider.get_start_cmd
    cases hn : app.nxMonorepo with
    | false =>
      cases ht : app.turbo with
      | false => rfl
      | true =>
        simp only [if_true, if_false]
        cases hts : app.turboStartCmd (app.readJsonD "package.json") with
        | error e => rfl
        | ok o =>
          cases o with
          | none => rfl
          | some c => exact absurd hts (hturbo ht c)
    | true =>
      rw [hnx hn]
      cases ht : app.turbo with
      | false => rfl
      | true =>
        simp only [if_true, if_false]
        cases hts : app.turboStartCmd (app.readJsonD "package.json") with
        | error e => rfl
        | ok o =>
          cases o with
          | none => rfl
          | some c => exact absurd hts (hturbo ht c)
  refine ⟨key, fun plan hplan => ?_⟩
  obtain ⟨_, _, _, _, startCmd, _, _, _, _, h5, hplaneq⟩ :=
    get_build_plan_ok app env plan hplan
  rw [key] at h5
  cases h5
  rw [hplaneq]

/-- Claim C7 witness: a tree with only an (empty) manifest — no start
script, no main entry, no index file — yields no start command and no
error. -/
theorem c7_start_command_fallback_witness :
    NodeProvider.get_start_cmd (baseApp ["package.json"]) envEmpty = Except.ok none := by
  have h := (c7_start_command_fallback (baseApp ["package.json"]) envEmpty
    (by decide) (fun ht => absurd ht (by decide))).1
  rw [h]
  decide

/-! ## Claim C3 -/

theorem readJsonD_of_ok (app : App) (pj : PackageJson)
    (h : (if app.includes_file "package.json" then app.readJson "package.json"
          else Except.ok {}) = Except.ok pj) :
    app.readJsonD "package.json" = pj := by
  unfold App.readJsonD
  cases hi : app.includes_file "package.json" with
  | true =>
    rw [hi] at h
    simp only [if_true] at h
    rw [h]
  | false =>
    rw [hi] at h
    simp only [Bool.false_eq_true, if_false, Except.ok.injEq] at h
    unfold App.readJson
    rw [hi]
    simp [h]

/-- Claim C3 counterexample: for a bun-managed tree the setup package set
is only the overlay-sourced bun package — the resolved nodejs runtime
package is omitted. -/
theorem c3_bun_runtime_counterexample :
    NodeProvider.get_package_manager (baseApp ["package.json", "bun.lockb"]) = "bun"
    ∧ NodeProvider.get_nix_packages (baseApp ["package.json", "bun.lockb"]) envEmpty
        = Except.ok [Pkg.from_overlay (Pkg.new "bun") NODE_OVERLAY]
    ∧ Pkg.new DEFAULT_NODE_PKG_NAME ∉ [Pkg.from_overlay (Pkg.new "bun") NODE_OVERLAY] := by
  refine ⟨by decide, by decide, by decide⟩

/-- The detected package manager's own Nix package, as `get_nix_packages`
computes it before sourcing it from the overlay: `pnpm-6_x`/`pnpm-7_x` by
lockfile version for pnpm, `yarn-1_x` for yarn, `bun` for bun, and
`npm-6_x`/`npm-8_x` by lockfile version for npm. -/
def managerOverlayPkg (app : App) : Pkg :=
  let package_manager := NodeProvider.get_package_manager app
  if package_manager = "pnpm" then
    (if strStartsWith (app.readFileD "pnpm-lock.yaml") "lockfileVersion: 5.3" then
       Pkg.new "pnpm-6_x"
     else Pkg.new "pnpm-7_x")
  else if package_manager = "yarn" then Pkg.new "yarn-1_x"
  else if package_manager = "bun" then Pkg.new "bun"
  else
    (if strContains (app.readFileD "package-lock.json") "\"lockfileVersion\": 1" then
       Pkg.new "npm-6_x"
     else Pkg.new "npm-8_x")

/-- Claim C3, amended: the setup Nix package set is exactly the resolved
runtime package (omitted when the detected manager is bun) followed by the
detected manager's own overlay-sourced package — `npm-6_x`/`npm-8_x` for
npm, `yarn-1_x` for yarn, `pnpm-6_x`/`pnpm-7_x` for pnpm, `bun` for bun.
In particular for npm, yarn and pnpm the set contains both the runtime and
the detected manager's overlay package, while for bun the runtime is
omitted and the set is exactly the overlay bun package. -/
theorem c3_setup_packages_amended (app : App) (env : Environment) (pkgs : List Pkg)
    (h : NodeProvider.get_nix_packages app env = Except.ok pkgs) :
    pkgs = (if NodeProvider.get_package_manager app ≠ "bun"
            then [NodeProvider.get_nix_node_pkg (app.readJsonD "package.json") app env]
            else [])
           ++ [Pkg.from_overlay (managerOverlayPkg app) NODE_OVERLAY]
    ∧ Pkg.from_overlay (managerOverlayPkg app) NODE_OVERLAY ∈ pkgs
    ∧ (NodeProvider.get_package_manager app ≠ "bun" →
        NodeProvider.get_nix_node_pkg (app.readJsonD "package.json") app env ∈ pkgs)
    ∧ (NodeProvider.get_package_manager app = "npm" →
        managerOverlayPkg app = Pkg.new "npm-6_x"
        ∨ managerOverlayPkg app = Pkg.new "npm-8_x")
    ∧ (NodeProvider.get_package_manager app = "yarn" →
        managerOverlayPkg app = Pkg.new "yarn-1_x")
    ∧ (NodeProvider.get_package_manager app = "pnpm" →
        managerOverlayPkg app = Pkg.new "pnpm-6_x"
        ∨ managerOverlayPkg app = Pkg.new "pnpm-7_x")
    ∧ (NodeProvider.get_package_manager app = "bun" →
        pkgs = [Pkg.from_overlay (Pkg.new "bun") NODE_OVERLAY])
    ∧ (∀ plan, NodeProvider.get_build_plan app env = Except.ok (some plan) →
        (plan.phases.getD 0 default).nixPkgs = pkgs) := by
  unfold NodeProvider.get_nix_packages at h
  cases hj : (if app.includes_file "package.json" then app.readJson "package.json"
              else Except.ok ({} : PackageJson)) with
  | error e => rw [hj] at h; exact Except.noConfusion h
  | ok package_json =>
  rw [hj] at h
  simp only [Except.ok.injEq] at h
  have hpj := readJsonD_of_ok app package_json hj
  have hmain : pkgs = (if NodeProvider.get_package_manager app ≠ "bun"
      then [NodeProvider.get_nix_node_pkg (app.readJsonD "package.json") app env]
      else []) ++ [Pkg.from_overlay (managerOverlayPkg app) NODE_OVERLAY] := by
    rw [← h, hpj]
    rfl
  refine ⟨hmain, ?_, ?_, ?_, ?_, ?_, ?_, ?_⟩
  · rw [hmain]
    exact List.mem_append_right _ (List.mem_singleton.mpr rfl)
  · intro hne
    rw [hmain, if_pos hne]
    exact List.mem_append_left _ (List.mem_singleton.mpr rfl)
  · intro hq
    unfold managerOverlayPkg
    rw [hq]
    cases hl : strContains (app.readFileD "package-lock.json") "\"lockfileVersion\": 1" with
    | true => left; simp [hl]
    | false => right; simp [hl]
  · intro hq
    unfold managerOverlayPkg
    rw [hq]
    simp
  · intro hq
    unfold managerOverlayPkg
    rw [hq]
    cases hl : strStartsWith (app.readFileD "pnpm-lock.yaml") "lockfileVersion: 5.3" with
    | true => left; simp [hl]
    | false => right; simp [hl]
  · intro hq
    have hm : managerOverlayPkg app = Pkg.new "bun" := by
      unfold managerOverlayPkg
      rw [hq]
      simp
    rw [hmain, hm, if_neg (by simp [hq])]
    simp
  · intro plan hplan
    obtain ⟨pkgs2, _, _, _, _, h1, _, _, _, _, hplaneq⟩ :=
      get_build_plan_ok app env plan hplan
    have hpk : pkgs2 = pkgs := by
      unfold NodeProvider.get_nix_packages at h1
      rw [hj] at h1
      simp only [Except.ok.injEq] at h1
      rw [← h1, h]
    rw [hplaneq, hpk]
    simp only [List.getD, List.getElem?_cons_zero, Option.getD_some]
    unfold NodeProvider.setupPhase
    cases hu1 : NodeProvider.uses_node_dependency app "puppeteer" <;>
      cases hu2 : NodeProvider.uses_node_dependency app "canvas" <;>
        simp [Phase.setup, Phase.add_apt_pkgs, Phase.add_pkgs_libs]

/-- Claim C3 witness: in an npm-managed tree the setup package set
contains both the resolved runtime package and the detected (npm)
manager's overlay-sourced package, which here is `npm-8_x`. -/
theorem c3_setup_packages_amended_witness :
    NodeProvider.get_nix_node_pkg ((baseApp ["package.json"]).readJsonD "package.json")
        (baseApp ["package.json"]) envEmpty
      ∈ [Pkg.new "nodejs-16_x", Pkg.from_overlay (Pkg.new "npm-8_x") NODE_OVERLAY]
    ∧ Pkg.from_overlay (managerOverlayPkg (baseApp ["package.json"])) NODE_OVERLAY
      ∈ [Pkg.new "nodejs-16_x", Pkg.from_overlay (Pkg.new "npm-8_x") NODE_OVERLAY]
    ∧ managerOverlayPkg (baseApp ["package.json"]) = Pkg.new "npm-8_x" := by
  have h := c3_setup_packages_amended (baseApp ["package.json"]) envEmpty
    [Pkg.new "nodejs-16_x", Pkg.from_overlay (Pkg.new "npm-8_x") NODE_OVERLAY] (by decide)
  exact ⟨h.2.2.1 (by decide), h.2.1, by decide⟩

/-! ## Claim C10 -/

/-- The plan produced by a successful `get_build_plan` (default plan when
generation fails or the provider abstains). -/
def planOf (app : App) (env : Environment) : BuildPlan :=
  ((NodeProvider.get_build_plan app env).toOption.getD none).getD {}

/-- A tree whose manifest text mentions both `puppeteer` and `canvas`. -/
def bothDepsApp : App :=
  { baseApp ["package.json"] with
      contents := fun f => if f = "package.json" then "dependencies puppeteer 1 canvas 1" else ""
      parseJson := fun _ =>
        Except.ok { dependencies := some [("puppeteer", "1"), ("canvas", "1")] } }

/-- A tree whose manifest text mentions `canvas` only. -/
def canvasApp : App :=
  { baseApp ["package.json"] with
      contents := fun f => if f = "package.json" then "dependencies canvas 1" else ""
      parseJson := fun _ => Except.ok { dependencies := some [("canvas", "1")] } }

/-- Claim C10 counterexample: when both `puppeteer` and `canvas` are
present, only the puppeteer apt set is added — the canvas library set is
skipped, so the two sets are not both added. -/
theorem c10_both_deps_counterexample :
    NodeProvider.uses_node_dependency bothDepsApp "puppeteer" = true
    ∧ NodeProvider.uses_node_dependency bothDepsApp "canvas" = true
    ∧ ((planOf bothDepsApp envEmpty).phases.getD 0 default).aptPkgs = puppeteerAptPkgs
    ∧ ((planOf bothDepsApp envEmpty).phases.getD 0 default).nixLibs = [] := by
  refine ⟨by decide, by decide, by decide, by decide⟩

/-- Claim C10, amended: the puppeteer apt set is added to the setup phase
exactly when `puppeteer` occurs in the manifest or a lockfile, and the
canvas library set (`libuuid`, `libGL`) is added exactly when `canvas`
occurs and `puppeteer` does not — the two branches are mutually exclusive
(`else if`), so both sets are never added together. -/
theorem c10_dependency_packages_amended (app : App) (env : Environment) (plan : BuildPlan)
    (h : NodeProvider.get_build_plan app env = Except.ok (some plan)) :
    (plan.phases.getD 0 default).aptPkgs
        = (if NodeProvider.uses_node_dependency app "puppeteer" then puppeteerAptPkgs else [])
    ∧ (plan.phases.getD 0 default).nixLibs
        = (if !NodeProvider.uses_node_dependency app "puppeteer"
              && NodeProvider.uses_node_dependency app "canvas" then ["libuuid", "libGL"]
           else []) := by
  obtain ⟨pkgs, _, _, _, _, _, _, _, _, _, hplaneq⟩ := get_build_plan_ok app env plan h
  rw [hplaneq]
  simp only [List.getD, List.getElem?_cons_zero, Option.getD_some]
  unfold NodeProvider.setupPhase
  cases hu1 : NodeProvider.uses_node_dependency app "puppeteer" <;>
    cases hu2 : NodeProvider.uses_node_dependency app "canvas" <;>
      simp [Phase.setup, Phase.add_apt_pkgs, Phase.add_pkgs_libs, hu1, hu2]

/-- Claim C10 witness: a tree mentioning only `canvas` gets the canvas
library set in its setup phase. -/
theorem c10_dependency_packages_amended_witness :
    ((planOf canvasApp envEmpty).phases.getD 0 default).nixLibs = ["libuuid", "libGL"] := by
  have h := (c10_dependency_packages_amended canvasApp envEmpty (planOf canvasApp envEmpty)
    (by decide)).2
  rw [h]
  decide

/-! ## Claim C9 -/

/-- `true` exactly on `Except.ok`. -/
def isOkB {α : Type} (e : Except Unit α) : Bool :=
  match e with
  | Except.ok _ => true
  | Except.error _ => false

theorem allDepsAux_mem (app : App) :
    ∀ (l deps : List String), NodeProvider.allDepsAux app l = Except.ok deps →
      ∀ x, x ∈ deps ↔ ∃ f, f ∈ l ∧ strContains f "node_modules" = false ∧
        ∃ pj, app.readJson f = Except.ok pj
          ∧ x ∈ NodeProvider.get_deps_from_package_json pj := by
  intro l
  induction l with
  | nil =>
    intro deps h x
    unfold NodeProvider.allDepsAux at h
    simp only [Except.ok.injEq] at h
    subst h
    simp
  | cons f rest ih =>
    intro deps h x
    unfold NodeProvider.allDepsAux at h
    cases hc : strContains f "node_modules" with
    | true =>
      rw [hc] at h
      simp only [if_true] at h
      rw [ih deps h x]
      constructor
      · rintro ⟨g, hg, hgc, hpj⟩
        exact ⟨g, List.mem_cons_of_mem f hg, hgc, hpj⟩
      · rintro ⟨g, hg, hgc, hpj⟩
        rcases List.mem_cons.mp hg with hgf | hg2
        · subst hgf
          rw [hc] at hgc
          exact Bool.noConfusion hgc
        · exact ⟨g, hg2, hgc, hpj⟩
    | false =>
      rw [hc] at h
      simp only [Bool.false_eq_true, if_false] at h
      cases hr : app.readJson f with
      | error e => rw [hr] at h; exact Except.noConfusion h
      | ok json =>
        rw [hr] at h
        cases ha : NodeProvider.allDepsAux app rest with
        | error e => rw [ha] at h; exact Except.noConfusion h
        | ok deps2 =>
          rw [ha] at h
          simp only [Except.ok.injEq] at h
          subst h
          rw [List.mem_append]
          constructor
          · rintro (hx | hx)
            · exact ⟨f, List.mem_cons_self f rest, hc, json, hr, hx⟩
            · obtain ⟨g, hg, hgc, pj, hpj, hpx⟩ := (ih deps2 ha x).mp hx
              exact ⟨g, List.mem_cons_of_mem f hg, hgc, pj, hpj, hpx⟩
          · rintro ⟨g, hg, hgc, pj, hpj, hpx⟩
            rcases List.mem_cons.mp hg with hgf | hg2
            · subst hgf
              rw [hr] at hpj
              injection hpj with hpj
              subst hpj
              exact Or.inl hpx
            · exact Or.inr ((ih deps2 ha x).mpr ⟨g, hg2, hgc, pj, hpj, hpx⟩)

theorem allDepsAux_ok (app : App) :
    ∀ l : List String, (∀ f ∈ l, strContains f "node_modules" = false →
        isOkB (app.readJson f) = true) →
      ∃ deps, NodeProvider.allDepsAux app l = Except.ok deps := by
  intro l
  induction l with
  | nil => exact fun _ => ⟨[], rfl⟩
  | cons f rest ih =>
    intro hok
    obtain ⟨deps2, ha⟩ := ih (fun g hg hgc => hok g (List.mem_cons_of_mem f hg) hgc)
    unfold NodeProvider.allDepsAux
    cases hc : strContains f "node_modules" with
    | true =>
      simp only [if_true]
      exact ⟨deps2, ha⟩
    | false =>
      have hf := hok f (List.mem_cons_self f rest) hc
      simp only [Bool.false_eq_true, if_false]
      cases hr : app.readJson f with
      | error e =>
        rw [hr] at hf
        exact Bool.noConfusion hf
      | ok json =>
        rw [ha]
        exact ⟨_, rfl⟩

theorem allDepsAux_error (app : App) :
    ∀ (l : List String) (f : String), f ∈ l → strContains f "node_modules" = false →
      app.readJson f = Except.error () →
      NodeProvider.allDepsAux app l = Except.error () := by
  intro l
  induction l with
  | nil => intro f hf _ _; exact absurd hf (List.not_mem_nil f)
  | cons g rest ih =>
    intro f hf hfc hfe
    unfold NodeProvider.allDepsAux
    rcases List.mem_cons.mp hf with hfg | hf2
    · subst hfg
      rw [hfc]
      simp only [Bool.false_eq_true, if_false]
      rw [hfe]
    · cases hc : strContains g "node_modules" with
      | true =>
        simp only [if_true]
        exact ih f hf2 hfc hfe
      | false =>
        simp only [Bool.false_eq_true, if_false]
        cases hr : app.readJson g with
        | error e => rfl
        | ok json => rw [ih f hf2 hfc hfe]

/-- Claim C9: `get_all_deps` unions the runtime and development dependency
names of every discovered manifest, and a manifest whose path contains the
`node_modules` segment is excluded by the substring check and contributes
nothing — neither names nor parse failures. -/
theorem c9_dependency_scan (app : App) :
    (∀ deps, NodeProvider.get_all_deps app = Except.ok deps →
      ∀ x, x ∈ deps ↔ ∃ f, f ∈ packageJsonFiles app ∧ strContains f "node_modules" = false ∧
        ∃ pj, app.readJson f = Except.ok pj
          ∧ x ∈ NodeProvider.get_deps_from_package_json pj)
    ∧ ((∀ f ∈ packageJsonFiles app, strContains f "node_modules" = false →
          isOkB (app.readJson f) = true) →
        ∃ deps, NodeProvider.get_all_deps app = Except.ok deps) := by
  constructor
  · intro deps h x
    exact allDepsAux_mem app (packageJsonFiles app) deps h x
  · intro hok
    exact allDepsAux_ok app (packageJsonFiles app) hok

/-- A monorepo tree with a root manifest (`express`), a malformed manifest
inside `node_modules`, and a nested manifest declaring `next` as a dev
dependency. -/
def scanApp : App :=
  { baseApp ["package.json", "node_modules/foo/package.json", "packages/a/package.json"] with
      parseJson := fun f =>
        if f = "package.json" then Except.ok { dependencies := some [("express", "1")] }
        else if f = "packages/a/package.json" then
          Except.ok { dev_dependencies := some [("next", "1")] }
        else Except.error () }

/-- Claim C9 witness: the scan succeeds despite the malformed manifest
under `node_modules`, and collects exactly the other manifests' names. -/
theorem c9_dependency_scan_witness :
    NodeProvider.get_all_deps scanApp = Except.ok ["express", "next"]
    ∧ ∃ deps, NodeProvider.get_all_deps scanApp = Except.ok deps :=
  ⟨by decide, (c9_dependency_scan scanApp).2 (by decide)⟩

/-! ## Claim C8 -/

theorem findNextAux_mem (app : App) :
    ∀ (l ds : List String), NodeProvider.findNextAux app l = Except.ok ds →
      ∀ d, d ∈ ds ↔ ∃ f, f ∈ l ∧ strContains f "node_modules" = false ∧
        ∃ pj, app.readJson f = Except.ok pj
          ∧ "next" ∈ NodeProvider.get_deps_from_package_json pj ∧ d = parentDir f := by
  intro l
  induction l with
  | nil =>
    intro ds h d
    unfold NodeProvider.findNextAux at h
    simp only [Except.ok.injEq] at h
    subst h
    simp
  | cons f rest ih =>
    intro ds h d
    unfold NodeProvider.findNextAux at h
    cases hc : strContains f "node_modules" with
    | true =>
      rw [hc] at h
      simp only [if_true] at h
      rw [ih ds h d]
      constructor
      · rintro ⟨g, hg, hgc, hpj⟩
        exact ⟨g, List.mem_cons_of_mem f hg, hgc, hpj⟩
      · rintro ⟨g, hg, hgc, hpj⟩
        rcases List.mem_cons.mp hg with hgf | hg2
        · subst hgf
          rw [hc] at hgc
          exact Bool.noConfusion hgc
        · exact ⟨g, hg2, hgc, hpj⟩
    | false =>
      rw [hc] at h
      simp only [Bool.false_eq_true, if_false] at h
      cases hr : app.readJson f with
      | error e => rw [hr] at h; exact Except.noConfusion h
      | ok json =>
        rw [hr] at h
        cases ha : NodeProvider.findNextAux app rest with
        | error e => rw [ha] at h; exact Except.noConfusion h
        | ok dirs =>
          rw [ha] at h
          simp only [Except.ok.injEq] at h
          by_cases hn : "next" ∈ NodeProvider.get_deps_from_package_json json
          · rw [if_pos hn] at h
            subst h
            rw [List.mem_cons]
            constructor
            · rintro (hd | hd)
              · exact ⟨f, List.mem_cons_self f rest, hc, json, hr, hn, hd⟩
              · obtain ⟨g, hg, hgc, pj, hpj, hpn, hpd⟩ := (ih dirs ha d).mp hd
                exact ⟨g, List.mem_cons_of_mem f hg, hgc, pj, hpj, hpn, hpd⟩
            · rintro ⟨g, hg, hgc, pj, hpj, hpn, hpd⟩
              rcases List.mem_cons.mp hg with hgf | hg2
              · subst hgf
                exact Or.inl hpd
              · exact Or.inr ((ih dirs ha d).mpr ⟨g, hg2, hgc, pj, hpj, hpn, hpd⟩)
          · rw [if_neg hn] at h
            subst h
            rw [ih dirs ha d]
            constructor
            · rintro ⟨g, hg, hgc, hpj⟩
              exact ⟨g, List.mem_cons_of_mem f hg, hgc, hpj⟩
            · rintro ⟨g, hg, hgc, pj, hpj, hpn, hpd⟩
              rcases List.mem_cons.mp hg with hgf | hg2
              · subst hgf
                rw [hr] at hpj
                injection hpj with hpj
                subst hpj
                exact absurd hpn hn
              · exact ⟨g, hg2, hgc, pj, hpj, hpn, hpd⟩

theorem cacheDirectories_add (p : Phase) (d : String) :
    (Phase.add_cache_directory p d).cacheDirectories = p.cacheDirectories ++ [d] := rfl

theorem cacheDirs_foldl :
    ∀ (ds : List String) (b : Phase),
      (ds.foldl (fun acc dir => Phase.add_cache_directory acc (NodeProvider.nextCacheDir dir))
          b).cacheDirectories
        = b.cacheDirectories ++ ds.map NodeProvider.nextCacheDir := by
  intro ds
  induction ds with
  | nil => intro b; simp
  | cons d rest ih =>
    intro b
    simp only [List.foldl_cons, List.map_cons]
    rw [ih]
    simp [Phase.add_cache_directory, List.append_assoc]

/-- Claim C8: the build phase's cache directories are exactly one entry
per manifest directory (outside `node_modules`) that declares the `next`
dependency — the bare `.next/cache` suffix for the project root, and
`<dir>/.next/cache` for a manifest nested at relative directory `<dir>` —
followed by the generic `node_modules/.cache` entry. -/
theorem c8_next_cache_directories (app : App) (env : Environment) (ds : List String)
    (h : NodeProvider.find_next_packages app = Except.ok ds) :
    (∀ d, d ∈ ds ↔ ∃ f, f ∈ packageJsonFiles app ∧ strContains f "node_modules" = false ∧
        ∃ pj, app.readJson f = Except.ok pj
          ∧ "next" ∈ NodeProvider.get_deps_from_package_json pj ∧ d = parentDir f)
    ∧ (∀ plan, NodeProvider.get_build_plan app env = Except.ok (some plan) →
        (plan.phases.getD 2 default).cacheDirectories
          = ds.map NodeProvider.nextCacheDir ++ [NODE_MODULES_CACHE_DIR]) := by
  constructor
  · exact findNextAux_mem app (packageJsonFiles app) ds h
  · intro plan hplan
    obtain ⟨pkgs, all_deps, buildCmd, next_dirs, startCmd, _, _, _, h4, _, hplaneq⟩ :=
      get_build_plan_ok app env plan hplan
    have hnd : next_dirs = ds := by
      rw [h] at h4
      injection h4 with h4
      exact h4.symm
    rw [hplaneq]
    show (NodeProvider.buildPhase buildCmd next_dirs).cacheDirectories
      = ds.map NodeProvider.nextCacheDir ++ [NODE_MODULES_CACHE_DIR]
    rw [hnd]
    unfold NodeProvider.buildPhase
    rw [cacheDirectories_add, cacheDirs_foldl]
    simp [Phase.build]

/-- A monorepo tree whose nested `packages/client` manifest declares
`next`. -/
def monoApp : App :=
  { baseApp ["package.json", "packages/client/package.json"] with
      parseJson := fun f =>
        if f = "packages/client/package.json" then
          Except.ok { dependencies := some [("next", "latest")] }
        else Except.ok {} }

/-- Claim C8 witness: the nested `next` manifest contributes
`packages/client/.next/cache`, followed by the generic dependency cache
directory. -/
theorem c8_next_cache_directories_witness :
    ((planOf monoApp envEmpty).phases.getD 2 default).cacheDirectories
      = ["packages/client/.next/cache", "node_modules/.cache"] := by
  have h := (c8_next_cache_directories monoApp envEmpty ["packages/client"] (by decide)).2
    (planOf monoApp envEmpty) (by decide)
  rw [h]
  decide

/-! ## Claim C2 -/

theorem findNextAux_error (app : App) :
    ∀ (l : List String) (f : String), f ∈ l → strContains f "node_modules" = false →
      app.readJson f = Except.error () →
      NodeProvider.findNextAux app l = Except.error () := by
  intro l
  induction l with
  | nil => intro f hf _ _; exact absurd hf (List.not_mem_nil f)
  | cons g rest ih =>
    intro f hf hfc hfe
    unfold NodeProvider.findNextAux
    rcases List.mem_cons.mp hf with hfg | hf2
    · subst hfg
      rw [hfc]
      simp only [Bool.false_eq_true, if_false]
      rw [hfe]
    · cases hc : strContains g "node_modules" with
      | true =>
        simp only [if_true]
        exact ih f hf2 hfc hfe
      | false =>
        simp only [Bool.false_eq_true, if_false]
        cases hr : app.readJson g with
        | error e => rfl
        | ok json => rw [ih f hf2 hfc hfe]

/-- A tree whose `package.json` exists but is malformed. -/
def badApp : App :=
  { baseApp ["package.json"] with parseJson := fun _ => Except.error () }

/-- Claim C2 counterexample: with an existing but malformed manifest,
`has_script` and `get_start_cmd` do not surface the parse error — they
proceed with the default (empty) manifest. -/
theorem c2_silent_default_counterexample :
    badApp.readJson "package.json" = Except.error ()
    ∧ NodeProvider.has_script badApp "build" = Except.ok false
    ∧ NodeProvider.get_start_cmd badApp envEmpty = Except.ok none := by
  refine ⟨by decide, by decide, by decide⟩

/-- Claim C2, amended: when `package.json` exists but fails to parse,
`get_nix_packages`, `get_all_deps` and `find_next_packages` propagate the
hard failure, and plan generation as a whole fails (its first step reads
the manifest); but `has_script` and `get_start_cmd` substitute the default
empty manifest instead of surfacing the error. -/
theorem c2_parse_error_amended (app : App) (env : Environment)
    (hfile : app.includes_file "package.json" = true)
    (hparse : app.parseJson "package.json" = Except.error ()) :
    NodeProvider.get_nix_packages app env = Except.error ()
    ∧ NodeProvider.get_all_deps app = Except.error ()
    ∧ NodeProvider.find_next_packages app = Except.error ()
    ∧ NodeProvider.get_build_plan app env = Except.error ()
    ∧ (∀ s, NodeProvider.has_script app s = Except.ok false)
    ∧ (app.nxMonorepo = false → app.turbo = false →
        ∃ r, NodeProvider.get_start_cmd app env = Except.ok r) := by
  have hjr : app.readJson "package.json" = Except.error () := by
    unfold App.readJson
    rw [hfile]
    simp [hparse]
  have hmem : "package.json" ∈ packageJsonFiles app := by
    have hany := List.any_eq_true.mp hfile
    obtain ⟨g, hg, hgeq⟩ := hany
    have hgeq2 : g = "package.json" := of_decide_eq_true hgeq
    subst hgeq2
    exact List.mem_filter.mpr ⟨hg, by decide⟩
  have hnix : NodeProvider.get_nix_packages app env = Except.error () := by
    unfold NodeProvider.get_nix_packages
    rw [hfile]
    simp [hjr]
  refine ⟨hnix, allDepsAux_error app (packageJsonFiles app) "package.json" hmem (by decide) hjr,
    findNextAux_error app (packageJsonFiles app) "package.json" hmem (by decide) hjr,
    ?_, ?_, ?_⟩
  · unfold NodeProvider.get_build_plan
    rw [hnix]
  · intro s
    unfold NodeProvider.has_script NodeProvider.hasScriptB App.readJsonD
    rw [hjr]
  · intro hnx hturbo
    cases hres : NodeProvider.get_start_cmd app env with
    | ok r => exact ⟨r, rfl⟩
    | error e =>
      unfold NodeProvider.get_start_cmd at hres
      rw [hnx, hturbo] at hres
      exact Except.noConfusion hres

/-- Claim C2 witness: at a concrete malformed-manifest tree, the
propagating readers fail hard and plan generation aborts. -/
theorem c2_parse_error_amended_witness :
    NodeProvider.get_nix_packages badApp envEmpty = Except.error ()
    ∧ NodeProvider.get_build_plan badApp envEmpty = Except.error () := by
  have h := c2_parse_error_amended badApp envEmpty (by decide) (by decide)
  exact ⟨h.1, h.2.2.2.1⟩
